import Mathlib

/-!
Shallow embedding of the "Neon Vault" casino widget (src/src/App.tsx) and
verification of its session state machine.

The source is a single React component.  Its mutable session state is the
`GameState` record (`wins`, `balance`, `showVault`, `currentGame`,
`isSpinning`, `lastResult`, `history`); the three state-transition entry
points are `handleWin`, `setGame` and `setIsSpinning`.  Randomness enters
only through `Math.random()`:
* `Math.floor(Math.random() * 101) + 400` — a uniform integer in
  [400, 500], embedded as a draw `r : Fin 101` with `winAmount r = r + 400`;
* `Math.floor(Math.random() * symbols.length)` — a uniform symbol index,
  embedded as `Fin 6`;
* `Math.floor(Math.random() * 6) + 1` — a uniform die value, embedded as a
  draw `r : Fin 6` with `diceFinal r = r + 1`;
* raw comparisons `Math.random() > 0.4` / `Math.random() > 0.5`, embedded
  by passing the drawn number as a rational `u` in [0, 1).

React's `setState(prev => ...)` updaters are embedded as pure functions
`GameState → GameState`; a session run is a fold of operations over the
initial state.
-/

namespace NeonVault

/-- The `GameType` union of src/src/App.tsx: `'slots' | 'coin' | 'dice'`. -/
inductive GameType where
  | slots
  | coin
  | dice
deriving DecidableEq

/-- The `'win' | 'loss'` union used for `history` entries. -/
inductive Outcome where
  | win
  | loss
deriving DecidableEq

/-- One entry of `history`: `{ game: string; result: 'win' | 'loss' }`.
The source only ever stores values of `currentGame` in the `game` field, so
it is embedded with the `GameType` type. -/
structure HistoryEntry where
  game : GameType
  result : Outcome
deriving DecidableEq

/-- The `GameState` interface of src/src/App.tsx. -/
structure GameState where
  wins : Nat
  balance : Nat
  showVault : Bool
  currentGame : GameType
  isSpinning : Bool
  lastResult : Option String
  history : List HistoryEntry
deriving DecidableEq

/-- The initial state passed to `useState` in `App`. -/
def initialState : GameState :=
  { wins := 0
    balance := 0
    showVault := false
    currentGame := GameType.slots
    isSpinning := false
    lastResult := none
    history := [] }

/-- `Math.floor(Math.random() * 101) + 400` — the win amount drawn in
`handleWin`, parameterised by the uniform draw `r : Fin 101`. -/
def winAmount (r : Fin 101) : Nat := r.val + 400

/-- The `setState` updater of `handleWin`, parameterised by the random draw
`r` for `winAmount`.  Sound/confetti side effects are external and carry no
state. -/
def handleWin (r : Fin 101) (prev : GameState) : GameState :=
  let amt := winAmount r
  let newWins := prev.wins + 1
  let shouldOpenVault : Bool := decide (newWins ≥ 3)
  { prev with
    wins := newWins
    balance := prev.balance + amt
    showVault := shouldOpenVault
    lastResult := some ("+$" ++ toString amt ++ "!")
    history := ({ game := prev.currentGame, result := Outcome.win } :: prev.history).take 5 }

/-- The `setGame` handler: no-op while `isSpinning`, otherwise switches
`currentGame` and clears `lastResult`. -/
def setGame (game : GameType) (s : GameState) : GameState :=
  if s.isSpinning then s
  else { s with currentGame := game, lastResult := none }

/-- The `setIsSpinning` helper: sets the `isSpinning` flag, nothing else. -/
def setIsSpinning (spinning : Bool) (s : GameState) : GameState :=
  { s with isSpinning := spinning }

/-- One session-level operation: a win callback (with its amount draw), a
game selection, or a spin-flag update. -/
inductive Op where
  | win (r : Fin 101)
  | select (g : GameType)
  | spin (b : Bool)

/-- Apply one operation to the session state. -/
def applyOp : Op → GameState → GameState
  | Op.win r, s => handleWin r s
  | Op.select g, s => setGame g s
  | Op.spin b, s => setIsSpinning b s

/-- Run a list of operations, first element first, from state `s`. -/
def runAux : GameState → List Op → GameState
  | s, [] => s
  | s, op :: ops => runAux (applyOp op s) ops

/-- Run a list of operations from the initial state. -/
def run (ops : List Op) : GameState := runAux initialState ops

/-- Whether an operation is a win callback. -/
def Op.isWin : Op → Bool
  | Op.win _ => true
  | _ => false

/-- Number of win operations in a trace. -/
def winCount (ops : List Op) : Nat := (ops.filter Op.isWin).length

/-- The amount credited by an operation (0 for non-wins). -/
def Op.amount : Op → Nat
  | Op.win r => winAmount r
  | _ => 0

/-- Total amount credited by a trace: the sum of its drawn win amounts. -/
def amountSum (ops : List Op) : Nat := (ops.map Op.amount).sum

/-- Ghost log of win records, most recent first: each win operation
contributes `{ game := currentGame at that moment, result := win }`,
without the length-5 truncation applied to `history`. -/
def winLogAux : GameState → List HistoryEntry → List Op → List HistoryEntry
  | _, acc, [] => acc
  | s, acc, Op.win r :: ops =>
      winLogAux (handleWin r s) ({ game := s.currentGame, result := Outcome.win } :: acc) ops
  | s, acc, Op.select g :: ops => winLogAux (setGame g s) acc ops
  | s, acc, Op.spin b :: ops => winLogAux (setIsSpinning b s) acc ops

/-- Ghost win log of a trace from the initial state. -/
def winLog (ops : List Op) : List HistoryEntry := winLogAux initialState [] ops

/-! ### Game modules

Each module's `spin` / `flip` / `roll` handler is embedded at the session
level: the guard `if (isSpinning) return`, then `setIsSpinning(true)`, the
purely cosmetic re-randomisation ticks (which touch only module-local
display state), then at the final tick `setIsSpinning(false)` followed by a
conditional `onWin()` call (`onWin = handleWin`, taking its amount draw as
a parameter here). -/

/-- The slot symbol list of `SlotMachine`. -/
def symbols : List String := ["🍒", "🍋", "🔔", "💎", "7️⃣", "🍀"]

theorem symbols_length : symbols.length = 6 := rfl

/-- `symbols[Math.floor(Math.random() * symbols.length)]` — symbol at a
uniformly drawn index. -/
def symAt (i : Fin 6) : String := symbols.get (Fin.cast symbols_length.symm i)

/-- The final win decision of `SlotMachine.spin`: with the cheat draw
`u = Math.random()`, if `u > 0.4` the round is an unconditional win;
otherwise it wins iff the three pre-drawn final reels all show the same
symbol (compared as strings, as in the source). -/
def slotWin (u : ℚ) (r0 r1 r2 : Fin 6) : Bool :=
  if mkRat 2 5 < u then true
  else decide (symAt r0 = symAt r1 ∧ symAt r1 = symAt r2)

/-- The three reel symbols displayed at the end of `SlotMachine.spin`: the
forced identical `winSym` triple on the cheat branch, the independently
drawn `finalReels` otherwise. -/
def slotFinalReels (u : ℚ) (r0 r1 r2 winSym : Fin 6) : String × String × String :=
  if mkRat 2 5 < u then (symAt winSym, symAt winSym, symAt winSym)
  else (symAt r0, symAt r1, symAt r2)

/-- Session-level effect of one `SlotMachine.spin` round.  `r0 r1 r2` are
the `finalReels` draws, `u` the cheat draw, `amt` the `winAmount` draw
consumed by `handleWin` on a win. -/
def slotRound (u : ℚ) (r0 r1 r2 _winSym : Fin 6) (amt : Fin 101) (s : GameState) : GameState :=
  if s.isSpinning then s
  else
    let s2 := setIsSpinning false (setIsSpinning true s)
    if slotWin u r0 r1 r2 then handleWin amt s2 else s2

/-- `'heads' | 'tails'`. -/
inductive CoinSide where
  | heads
  | tails
deriving DecidableEq

/-- `Math.random() > 0.5 ? 'heads' : 'tails'` — the coin flip result. -/
def coinResult (u : ℚ) : CoinSide :=
  if mkRat 1 2 < u then CoinSide.heads else CoinSide.tails

/-- Session-level effect of one `CoinFlip.flip(userChoice)` round. -/
def coinRound (userChoice : CoinSide) (u : ℚ) (amt : Fin 101) (s : GameState) : GameState :=
  if s.isSpinning then s
  else
    let s2 := setIsSpinning false (setIsSpinning true s)
    if coinResult u = userChoice then handleWin amt s2 else s2

/-- `Math.floor(Math.random() * 6) + 1` — the final die value, from the
uniform draw `r : Fin 6`. -/
def diceFinal (r : Fin 6) : Nat := r.val + 1

/-- Session-level effect of one `DiceRoll.roll` round: wins iff the final
value exceeds 3. -/
def diceRound (r : Fin 6) (amt : Fin 101) (s : GameState) : GameState :=
  if s.isSpinning then s
  else
    let s2 := setIsSpinning false (setIsSpinning true s)
    if diceFinal r > 3 then handleWin amt s2 else s2

/-- The `setInterval` period of `DiceRoll.roll`, in milliseconds. -/
def diceIntervalMs : Nat := 80

/-- The tick counter of `DiceRoll.roll`: each interval callback increments
`count` and the interval is cleared once `count > 15`.  `fuel` bounds the
number of callbacks the timer could ever deliver; the returned value is the
final `count`, i.e. the number of callbacks actually executed. -/
def diceTickLoop (count : Nat) : Nat → Nat
  | 0 => count
  | fuel + 1 => if count + 1 > 15 then count + 1 else diceTickLoop (count + 1) fuel

/-- The `setInterval` period of `SlotMachine.spin`, in milliseconds. -/
def slotIntervalMs : Nat := 100

/-- The tick counter of `SlotMachine.spin`: each callback increments
`iterations` and the interval is cleared once `iterations > 20`. -/
def slotTickLoop (iterations : Nat) : Nat → Nat
  | 0 => iterations
  | fuel + 1 =>
      if iterations + 1 > 20 then iterations + 1 else slotTickLoop (iterations + 1) fuel

/-! ### Slots win probability

`Math.random()` is uniform on the real interval [0, 1) and enters the slot
outcome only through the comparison `u > 0.4`, which splits [0, 1) into
pieces of measure 2/5 (lose branch) and 3/5 (cheat branch).  The draw is
discretised as the 10 midpoints `(2k+1)/20`, `k < 10`, of a uniform
partition of [0, 1); the comparison against 2/5 gives those two branches
masses 4/10 and 6/10, exactly the continuous measures.  The three final
reels are uniform on the 6 symbols, so the sample space
`Fin 10 × Fin 6 × Fin 6 × Fin 6` with counting measure realises the
source's distribution of `(u > 0.4, finalReels)`. -/

/-- Midpoint of the `k`-th cell of the uniform 10-cell partition of [0, 1). -/
def slotMid (k : Fin 10) : ℚ := mkRat (2 * k.val + 1) 20

/-- All triples of final-reel draws. -/
def reelDraws : List (Fin 6 × Fin 6 × Fin 6) :=
  (List.finRange 6).flatMap fun a =>
    (List.finRange 6).flatMap fun b =>
      (List.finRange 6).map fun c => (a, b, c)

/-- All slot outcome draws: cheat-draw cell and three reel indices. -/
def slotDraws : List (Fin 10 × Fin 6 × Fin 6 × Fin 6) :=
  (List.finRange 10).flatMap fun k => reelDraws.map fun t => (k, t.1, t.2.1, t.2.2)

/-- Number of winning slot outcomes among all draws. -/
def slotWinCount : Nat :=
  slotDraws.countP fun x => slotWin (slotMid x.1) x.2.1 x.2.2.1 x.2.2.2

/-- Per-round slot win probability over the uniform draws: favourable
outcomes over total outcomes. -/
def slotWinProb : ℚ := mkRat slotWinCount slotDraws.length

/-- Number of winning slot outcomes in one cheat-draw cell. -/
def cellCount (k : Fin 10) : Nat :=
  reelDraws.countP fun t => slotWin (slotMid k) t.1 t.2.1 t.2.2

set_option maxRecDepth 40000 in
theorem cellCount_eq : ∀ k : Fin 10, cellCount k = if 4 ≤ k.val then 216 else 6 := by decide

theorem slotWinCount_eq : slotWinCount = 1320 := by
  unfold slotWinCount slotDraws
  rw [List.countP_flatMap]
  have hf : ((List.countP fun x => slotWin (slotMid x.1) x.2.1 x.2.2.1 x.2.2.2) ∘
      fun k => reelDraws.map fun t => (k, t.1, t.2.1, t.2.2)) = cellCount := by
    funext k
    simp only [Function.comp]
    rw [List.countP_map]
    rfl
  rw [hf]
  rw [show List.finRange 10 = [0, 1, 2, 3, 4, 5, 6, 7, 8, 9] from rfl]
  simp only [List.map_cons, List.map_nil, List.sum_cons, List.sum_nil]
  rw [cellCount_eq 0, cellCount_eq 1, cellCount_eq 2, cellCount_eq 3, cellCount_eq 4,
    cellCount_eq 5, cellCount_eq 6, cellCount_eq 7, cellCount_eq 8, cellCount_eq 9]
  decide

set_option maxRecDepth 4000 in
theorem slotDraws_length : slotDraws.length = 2160 := by
  unfold slotDraws
  rw [List.length_flatMap]
  have hf : ((List.length (α := Fin 10 × Fin 6 × Fin 6 × Fin 6)) ∘
      fun k => reelDraws.map fun t => (k, t.1, t.2.1, t.2.2)) = fun _ => 216 := by
    funext k
    simp only [Function.comp, List.length_map]
    decide
  rw [hf]
  rw [show List.finRange 10 = [0, 1, 2, 3, 4, 5, 6, 7, 8, 9] from rfl]
  norm_num

theorem slotWinProb_eq : slotWinProb = mkRat 11 18 := by
  unfold slotWinProb
  rw [slotWinCount_eq, slotDraws_length]
  decide

/-! ### Trace lemmas -/

theorem winCount_cons (op : Op) (ops : List Op) :
    winCount (op :: ops) = (if op.isWin then 1 else 0) + winCount ops := by
  unfold winCount
  rw [List.filter_cons]
  by_cases h : op.isWin
  · simp [h, Nat.add_comm]
  · simp [h]

theorem amountSum_cons (op : Op) (ops : List Op) :
    amountSum (op :: ops) = op.amount + amountSum ops := by
  unfold amountSum
  rw [List.map_cons, List.sum_cons]

theorem applyOp_wins (op : Op) (s : GameState) :
    (applyOp op s).wins = s.wins + (if op.isWin then 1 else 0) := by
  cases op <;> simp [applyOp, handleWin, setGame, setIsSpinning, Op.isWin]
  case select g => by_cases h : s.isSpinning <;> simp [h]

theorem applyOp_balance (op : Op) (s : GameState) :
    (applyOp op s).balance = s.balance + op.amount := by
  cases op <;> simp [applyOp, handleWin, setGame, setIsSpinning, Op.amount]
  case select g => by_cases h : s.isSpinning <;> simp [h]

theorem applyOp_vault (op : Op) (s : GameState)
    (h : s.showVault = decide (3 ≤ s.wins)) :
    (applyOp op s).showVault = decide (3 ≤ (applyOp op s).wins) := by
  cases op
  case win r => simp [applyOp, handleWin]
  case select g =>
    simp only [applyOp, setGame]
    by_cases hsp : s.isSpinning <;> simp [hsp, h]
  case spin b => simpa [applyOp, setIsSpinning] using h

theorem runAux_wins (ops : List Op) (s : GameState) :
    (runAux s ops).wins = s.wins + winCount ops := by
  induction ops generalizing s with
  | nil => simp [runAux, winCount]
  | cons op ops ih =>
      rw [runAux, ih, applyOp_wins, winCount_cons]
      omega

theorem runAux_balance (ops : List Op) (s : GameState) :
    (runAux s ops).balance = s.balance + amountSum ops := by
  induction ops generalizing s with
  | nil => simp [runAux, amountSum]
  | cons op ops ih =>
      rw [runAux, ih, applyOp_balance, amountSum_cons]
      omega

theorem runAux_vault (ops : List Op) (s : GameState)
    (h : s.showVault = decide (3 ≤ s.wins)) :
    (runAux s ops).showVault = decide (3 ≤ (runAux s ops).wins) := by
  induction ops generalizing s with
  | nil => exact h
  | cons op ops ih => exact ih _ (applyOp_vault op s h)

theorem runAux_history (ops : List Op) (s : GameState) (acc : List HistoryEntry)
    (h : s.history = acc.take 5) :
    (runAux s ops).history = (winLogAux s acc ops).take 5 := by
  induction ops generalizing s acc with
  | nil => exact h
  | cons op ops ih =>
      cases op
      case win r =>
        rw [runAux, winLogAux]
        refine ih _ _ ?_
        simp only [applyOp, handleWin, h, List.take_succ_cons]
        rw [List.take_take]
        norm_num
      case select g =>
        rw [runAux, winLogAux]
        refine ih _ _ ?_
        simp only [applyOp, setGame]
        by_cases hsp : s.isSpinning <;> simp [hsp, h]
      case spin b =>
        rw [runAux, winLogAux]
        refine ih _ _ ?_
        simpa [applyOp, setIsSpinning] using h

theorem winLogAux_length (ops : List Op) (s : GameState) (acc : List HistoryEntry) :
    (winLogAux s acc ops).length = acc.length + winCount ops := by
  induction ops generalizing s acc with
  | nil => simp [winLogAux, winCount]
  | cons op ops ih =>
      cases op <;> (rw [winLogAux, ih, winCount_cons]; simp [Op.isWin]; try omega)

theorem winLogAux_result (ops : List Op) (s : GameState) (acc : List HistoryEntry)
    (h : ∀ e ∈ acc, e.result = Outcome.win) :
    ∀ e ∈ winLogAux s acc ops, e.result = Outcome.win := by
  induction ops generalizing s acc with
  | nil => exact h
  | cons op ops ih =>
      cases op
      case win r =>
        rw [winLogAux]
        refine ih _ _ ?_
        intro e he
        rcases List.mem_cons.mp he with rfl | he
        · rfl
        · exact h e he
      case select g =>
        rw [winLogAux]
        exact ih _ _ h
      case spin b =>
        rw [winLogAux]
        exact ih _ _ h

/-- Helper: the in-range amount sum bounds. -/
theorem amountSum_bounds (ops : List Op) :
    400 * winCount ops ≤ amountSum ops ∧ amountSum ops ≤ 500 * winCount ops := by
  induction ops with
  | nil => simp [amountSum, winCount]
  | cons op ops ih =>
      obtain ⟨ih1, ih2⟩ := ih
      rw [amountSum_cons, winCount_cons]
      cases op
      case win r =>
        have hr := r.isLt
        simp only [Op.amount, Op.isWin, winAmount, if_pos]
        constructor <;> (rw [Nat.mul_add]; omega)
      case select g =>
        simpa [Op.amount, Op.isWin] using ⟨ih1, ih2⟩
      case spin b =>
        simpa [Op.amount, Op.isWin] using ⟨ih1, ih2⟩

/-! ### Claims -/

/-- C1: `handleWin` applied to any session state draws `winAmount`
uniformly from the integers [400, 500] — every draw lands in the range and
each value in the range arises from exactly one draw — and produces the
state with `wins` incremented by 1, `balance` increased by exactly
`winAmount`, `showVault` true whenever the new `wins` count reaches 3, the
entry `{game := currentGame, result := win}` prepended to `history`
truncated to at most 5 entries, and `lastResult` set to
`"+$<winAmount>!"`. -/
theorem handleWin_spec (r : Fin 101) (s : GameState) :
    400 ≤ winAmount r ∧ winAmount r ≤ 500 ∧
    (∀ a : Nat, 400 ≤ a → a ≤ 500 → ∃! r' : Fin 101, winAmount r' = a) ∧
    (handleWin r s).wins = s.wins + 1 ∧
    (handleWin r s).balance = s.balance + winAmount r ∧
    (3 ≤ (handleWin r s).wins → (handleWin r s).showVault = true) ∧
    (handleWin r s).history =
      ({ game := s.currentGame, result := Outcome.win } :: s.history).take 5 ∧
    (handleWin r s).lastResult = some ("+$" ++ toString (winAmount r) ++ "!") := by
  have hr := r.isLt
  refine ⟨by unfold winAmount; omega, by unfold winAmount; omega, ?_, rfl, rfl, ?_, rfl, rfl⟩
  · intro a h1 h2
    refine ⟨⟨a - 400, by omega⟩, by show a - 400 + 400 = a; omega, ?_⟩
    intro y hy
    unfold winAmount at hy
    apply Fin.ext
    show y.val = a - 400
    omega
  · intro h
    simp only [handleWin] at h ⊢
    exact decide_eq_true h

/-- Witness for C1: a concrete draw of 420 on a two-win state opens the
vault, and 455 is hit by exactly one draw. -/
theorem handleWin_spec_witness :
    (handleWin 20 { initialState with wins := 2 }).showVault = true ∧
    (∃! r' : Fin 101, winAmount r' = 455) := by
  have h := handleWin_spec 20 { initialState with wins := 2 }
  exact ⟨h.2.2.2.2.2.1 (by decide), h.2.2.1 455 (by decide) (by decide)⟩

/-- C2: in every state reachable from the initial session by `onWin`,
`selectGame` and `setSpinning` operations, `showVault` is true exactly when
`wins ≥ 3`; once true it stays true under every further operation. -/
theorem showVault_iff_wins (ops : List Op) :
    ((run ops).showVault = true ↔ 3 ≤ (run ops).wins) ∧
    (∀ op : Op, (run ops).showVault = true → (applyOp op (run ops)).showVault = true) := by
  have h : (run ops).showVault = decide (3 ≤ (run ops).wins) :=
    runAux_vault ops initialState rfl
  constructor
  · rw [h]
    exact decide_eq_true_iff
  · intro op hv
    have hw : 3 ≤ (run ops).wins := by
      rw [h] at hv
      exact of_decide_eq_true hv
    rw [applyOp_vault op (run ops) h]
    apply decide_eq_true
    rw [applyOp_wins]
    omega

/-- Witness for C2: after three wins the vault stays open under a further
spin-flag update. -/
theorem showVault_iff_wins_witness :
    (applyOp (Op.spin true) (run [Op.win 0, Op.win 0, Op.win 0])).showVault = true :=
  (showVault_iff_wins [Op.win 0, Op.win 0, Op.win 0]).2 (Op.spin true) (by decide)

/-- C3: every reachable `history` has at most 5 entries, records only wins,
and equals the most-recent-first log of win records truncated to 5. -/
theorem history_spec (ops : List Op) :
    (run ops).history.length ≤ 5 ∧
    ((run ops).history.all fun e => decide (e.result = Outcome.win)) = true ∧
    (run ops).history = (winLog ops).take 5 := by
  have hh : (run ops).history = (winLog ops).take 5 :=
    runAux_history ops initialState [] rfl
  have hw : ∀ e ∈ winLog ops, e.result = Outcome.win :=
    winLogAux_result ops initialState [] (by intro e he; cases he)
  refine ⟨?_, ?_, hh⟩
  · rw [hh, List.length_take]
    omega
  · rw [hh]
    apply List.all_eq_true.mpr
    intro e he
    exact decide_eq_true (hw e (List.mem_of_mem_take he))

/-- C4: `setGame` is a no-op (on the whole state) while `isSpinning`;
otherwise it sets `currentGame`, clears `lastResult`, and leaves every
other field unchanged. -/
theorem setGame_spec (g : GameType) (s : GameState) :
    (s.isSpinning = true → setGame g s = s) ∧
    (s.isSpinning = false →
      (setGame g s).currentGame = g ∧
      (setGame g s).lastResult = none ∧
      (setGame g s).wins = s.wins ∧
      (setGame g s).balance = s.balance ∧
      (setGame g s).showVault = s.showVault ∧
      (setGame g s).isSpinning = s.isSpinning ∧
      (setGame g s).history = s.history) := by
  constructor
  · intro h
    simp [setGame, h]
  · intro h
    simp [setGame, h]

/-- Witness for C4: switching to coin from the idle initial state, and the
no-op while a spin is in flight. -/
theorem setGame_spec_witness :
    (setGame GameType.coin initialState).currentGame = GameType.coin ∧
    setGame GameType.dice { initialState with isSpinning := true } =
      { initialState with isSpinning := true } :=
  ⟨((setGame_spec GameType.coin initialState).2 (by decide)).1,
   (setGame_spec GameType.dice { initialState with isSpinning := true }).1 (by decide)⟩

/-- C5: a round of any of the three modules that resolves as a loss leaves
the whole session state unchanged except for `isSpinning`, which ends
false: `wins`, `balance`, `showVault` and `history` keep their values and
`lastResult` is not set. -/
theorem loss_frame (s : GameState) (hs : s.isSpinning = false) :
    (∀ (u : ℚ) (r0 r1 r2 w : Fin 6) (amt : Fin 101), slotWin u r0 r1 r2 = false →
      slotRound u r0 r1 r2 w amt s = s) ∧
    (∀ (choice : CoinSide) (u : ℚ) (amt : Fin 101), coinResult u ≠ choice →
      coinRound choice u amt s = s) ∧
    (∀ (r : Fin 6) (amt : Fin 101), ¬ 3 < diceFinal r →
      diceRound r amt s = s) := by
  have hrec : setIsSpinning false (setIsSpinning true s) = s := by
    cases s
    simp only [setIsSpinning]
    simp_all
  refine ⟨?_, ?_, ?_⟩
  · intro u r0 r1 r2 w amt hl
    simp [slotRound, hs, hl, hrec]
  · intro choice u amt hl
    simp [coinRound, hs, hl, hrec]
  · intro r amt hl
    simp [diceRound, hs, hl, hrec]

/-- Witness for C5: concrete losing draws on each module leave the initial
state untouched. -/
theorem loss_frame_witness :
    slotRound (mkRat 1 10) 0 0 1 2 3 initialState = initialState ∧
    coinRound CoinSide.heads (mkRat 1 10) 3 initialState = initialState ∧
    diceRound 0 3 initialState = initialState := by
  have h := loss_frame initialState (by decide)
  exact ⟨h.1 (mkRat 1 10) 0 0 1 2 3 (by decide),
    h.2.1 CoinSide.heads (mkRat 1 10) 3 (by decide),
    h.2.2 0 3 (by decide)⟩

/-- C6: the reachable balance equals the sum of the drawn win amounts, each
single draw lies in [400, 500], no operation ever decreases the balance,
and after a trace with N wins the balance lies between 400·N and 500·N. -/
theorem balance_spec (ops : List Op) :
    (run ops).balance = amountSum ops ∧
    (∀ r : Fin 101, 400 ≤ winAmount r ∧ winAmount r ≤ 500) ∧
    (∀ (op : Op) (s : GameState), s.balance ≤ (applyOp op s).balance) ∧
    400 * winCount ops ≤ (run ops).balance ∧
    (run ops).balance ≤ 500 * winCount ops := by
  have hb : (run ops).balance = amountSum ops := by
    have := runAux_balance ops initialState
    simpa [initialState] using this
  obtain ⟨h1, h2⟩ := amountSum_bounds ops
  refine ⟨hb, ?_, ?_, by omega, by omega⟩
  · intro r
    have hr := r.isLt
    unfold winAmount
    omega
  · intro op s
    rw [applyOp_balance]
    omega

/-- Helper: the dice interval stops after exactly 16 callbacks whenever the
timer could deliver at least that many. -/
theorem diceTickLoop_run (fuel : Nat) :
    ∀ count : Nat, count ≤ 15 → 16 ≤ count + fuel → diceTickLoop count fuel = 16 := by
  induction fuel with
  | zero =>
      intro count h1 h2
      omega
  | succ fuel ih =>
      intro count h1 h2
      rw [diceTickLoop]
      by_cases h : count + 1 > 15
      · rw [if_pos h]
        omega
      · rw [if_neg h]
        exact ih (count + 1) (by omega) (by omega)

/-- Helper: the slot interval stops after exactly 21 callbacks whenever the
timer could deliver at least that many. -/
theorem slotTickLoop_run (fuel : Nat) :
    ∀ iterations : Nat, iterations ≤ 20 → 21 ≤ iterations + fuel →
      slotTickLoop iterations fuel = 21 := by
  induction fuel with
  | zero =>
      intro iterations h1 h2
      omega
  | succ fuel ih =>
      intro iterations h1 h2
      rw [slotTickLoop]
      by_cases h : iterations + 1 > 20
      · rw [if_pos h]
        omega
      · rw [if_neg h]
        exact ih (iterations + 1) (by omega) (by omega)

/-- C7 counterexample: the claimed net per-round win probability of
≈ 61.7% is wrong — the actual probability (11/18 ≈ 61.1%) differs from
0.617 by more than half a percentage point. -/
theorem slotWinProb_not_617 : ¬ |slotWinProb - mkRat 617 1000| ≤ mkRat 1 200 := by
  rw [slotWinProb_eq,
    show (mkRat 11 18 : ℚ) = 11 / 18 by rw [Rat.mkRat_eq_divInt, Rat.divInt_eq_div]; norm_num,
    show (mkRat 617 1000 : ℚ) = 617 / 1000 by
      rw [Rat.mkRat_eq_divInt, Rat.divInt_eq_div]; norm_num,
    show (mkRat 1 200 : ℚ) = 1 / 200 by rw [Rat.mkRat_eq_divInt, Rat.divInt_eq_div]; norm_num,
    show (11 : ℚ) / 18 - 617 / 1000 = -(53 / 9000) by norm_num]
  rw [abs_neg, abs_of_pos (by norm_num : (0 : ℚ) < 53 / 9000)]
  norm_num

/-- C7 (amended): if the fresh cheat draw exceeds 0.4 the three reels are
forced to one identical symbol and the round is an unconditional win;
otherwise the three independently drawn symbols are shown and the round
wins iff all three match; over the uniform random inputs the net win
probability is exactly 11/18 ≈ 61.1%. -/
theorem slots_spec (u : ℚ) (r0 r1 r2 w : Fin 6) :
    (mkRat 2 5 < u →
      slotFinalReels u r0 r1 r2 w = (symAt w, symAt w, symAt w) ∧
      slotWin u r0 r1 r2 = true) ∧
    (¬ mkRat 2 5 < u →
      slotFinalReels u r0 r1 r2 w = (symAt r0, symAt r1, symAt r2) ∧
      (slotWin u r0 r1 r2 = true ↔ (symAt r0 = symAt r1 ∧ symAt r1 = symAt r2))) ∧
    slotWinProb = mkRat 11 18 := by
  refine ⟨?_, ?_, slotWinProb_eq⟩
  · intro h
    constructor
    · simp [slotFinalReels, h]
    · simp [slotWin, h]
  · intro h
    refine ⟨by simp [slotFinalReels, h], ?_⟩
    simp [slotWin, h]

/-- Witness for C7: a cheat draw of 0.5 wins outright; a cheat draw of 0.2
leaves the win decision to the three reels. -/
theorem slots_spec_witness :
    slotWin (mkRat 1 2) 0 1 2 = true ∧
    (slotWin (mkRat 1 5) 0 1 2 = true ↔ (symAt 0 = symAt 1 ∧ symAt 1 = symAt 2)) :=
  ⟨((slots_spec (mkRat 1 2) 0 1 2 3).1 (by decide)).2,
   ((slots_spec (mkRat 1 5) 0 1 2 3).2.1 (by decide)).2⟩

/-- C8: the dice module's interval runs exactly 16 ticks at 80 ms, the
final value is uniform on [1, 6] — each draw lands in the range and each
value arises from exactly one draw — and the round reports a win iff that
value exceeds 3, which holds for 3 of the 6 equally likely values. -/
theorem dice_spec (r : Fin 6) (amt : Fin 101) (s : GameState) :
    diceIntervalMs = 80 ∧
    (∀ fuel : Nat, 16 ≤ fuel → diceTickLoop 0 fuel = 16) ∧
    1 ≤ diceFinal r ∧ diceFinal r ≤ 6 ∧
    (∀ a : Nat, 1 ≤ a → a ≤ 6 → ∃! r' : Fin 6, diceFinal r' = a) ∧
    (s.isSpinning = false →
      (3 < diceFinal r →
        diceRound r amt s = handleWin amt { s with isSpinning := false }) ∧
      (¬ 3 < diceFinal r → diceRound r amt s = { s with isSpinning := false })) ∧
    ((List.finRange 6).countP fun r' => decide (3 < diceFinal r')) = 3 := by
  have hr := r.isLt
  refine ⟨rfl, ?_, by unfold diceFinal; omega, by unfold diceFinal; omega, ?_, ?_, by decide⟩
  · intro fuel hf
    exact diceTickLoop_run fuel 0 (by omega) (by omega)
  · intro a h1 h2
    refine ⟨⟨a - 1, by omega⟩, by show a - 1 + 1 = a; omega, ?_⟩
    intro y hy
    unfold diceFinal at hy
    apply Fin.ext
    show y.val = a - 1
    omega
  · intro hs
    constructor
    · intro hwin
      simp [diceRound, hs, hwin, setIsSpinning]
    · intro hloss
      simp [diceRound, hs, hloss, setIsSpinning]

/-- Witness for C8: with 20 ticks of fuel the loop stops at 16; a final
roll of 6 triggers the win callback; 4 is hit by exactly one draw. -/
theorem dice_spec_witness :
    diceTickLoop 0 20 = 16 ∧
    diceRound 5 0 initialState = handleWin 0 { initialState with isSpinning := false } ∧
    (∃! r' : Fin 6, diceFinal r' = 4) := by
  have h := dice_spec 5 0 initialState
  exact ⟨h.2.1 20 (by decide),
    (h.2.2.2.2.2.1 (by decide)).1 (by decide),
    h.2.2.2.2.1 4 (by decide) (by decide)⟩

/-- C9: the reachable history length is exactly min(wins, 5); `handleWin`
adds exactly one entry (up to the cap of 5) and neither `setGame` nor
`setIsSpinning` ever adds or removes an entry. -/
theorem history_length_spec (ops : List Op) :
    (run ops).history.length = min (run ops).wins 5 ∧
    (∀ (r : Fin 101) (s : GameState),
      (handleWin r s).history.length = min (s.history.length + 1) 5) ∧
    (∀ (g : GameType) (s : GameState), (setGame g s).history = s.history) ∧
    (∀ (b : Bool) (s : GameState), (setIsSpinning b s).history = s.history) := by
  refine ⟨?_, ?_, ?_, ?_⟩
  · have hh : (run ops).history = (winLogAux initialState [] ops).take 5 :=
      runAux_history ops initialState [] rfl
    have hl := winLogAux_length ops initialState []
    have hw : (run ops).wins = 0 + winCount ops := runAux_wins ops initialState
    rw [hh, List.length_take, hl, hw]
    simp
    omega
  · intro r s
    simp [handleWin, List.length_take]
    omega
  · intro g s
    by_cases h : s.isSpinning <;> simp [setGame, h]
  · intro b s
    simp [setIsSpinning]

/-- C10: `handleWin` leaves `currentGame` and `isSpinning` unchanged in
every session state — the only fields it writes are `wins`, `balance`,
`showVault`, `lastResult` and `history`. -/
theorem handleWin_frame (r : Fin 101) (s : GameState) :
    (handleWin r s).currentGame = s.currentGame ∧
    (handleWin r s).isSpinning = s.isSpinning :=
  ⟨rfl, rfl⟩

end NeonVault
